import Mathlib

/-!
Verification of the recursive-descent parser of `yet-another-interpreter`
(`src/parser/mod.rs`, `src/error/error.rs`).

The parser is embedded shallowly: each Rust method becomes a Lean function
on an explicit `Parser` state, Rust `Result`/`?` becomes the `PRes` type
with a `bind` combinator, and each Rust `while`/`loop` becomes a companion
`_loop` function.  All parsing functions take a fuel argument (the Rust
code recurses without any bound; fuel makes the embedding total while
keeping it executable), and a fuel-sufficiency theorem shows the canonical
fuel bound used by `parse_program` never runs out, i.e. the source parser
terminates on every finite token stream.

The lexer itself is not part of the sources; per the specification it is a
pull-based token producer that keeps yielding the end-of-input marker once
reached.  It is modelled as the list of tokens it will yield.
-/

namespace Yai

/-- Rust `f64` number payloads are carried opaquely by the parser (never
inspected, compared or computed with by any parsing function); they are
modelled as rationals, in which the numeric literals appearing in this
development (1, 2, 32, ...) are exactly representable. -/
abbrev F64 := ℚ

/-- Alias for the string type, used in signatures inside namespaces that
declare a constructor also named `String`. -/
abbrev Str := String

/-- Token kinds (`TokenType`).  The enum is defined in the lexer module,
which is outside the given sources; the variants below are exactly the ones
the parser (`src/parser/mod.rs`) references, plus nothing else — any
further variant of the real enum falls into the same catch-all arms as the
unlisted ones here. -/
inductive TokenType where
  | Eof
  | Let
  | Const
  | Class
  | Function
  | Print
  | If
  | Else
  | While
  | For
  | Return
  | Super
  | This
  | True
  | False
  | LBrace
  | RBrace
  | LParen
  | RParen
  | Semicolon
  | Comma
  | Dot
  | Assign
  | PlusEq
  | SubEq
  | ModEq
  | DivEq
  | AndEq
  | OrEq
  | MulEq
  | XorEq
  | Or
  | LAnd
  | Eq
  | Ne
  | Gt
  | Gte
  | Lt
  | Lte
  | Plus
  | Minus
  | And
  | Xor
  | Times
  | Divide
  | Not
  | Number : F64 → TokenType
  | String : String → TokenType
  | Identifier : String → TokenType
  deriving DecidableEq

/-- Discriminant of a token kind: payload-carrying kinds map to one tag per
kind, irrespective of the payload. -/
def TokenType.tag : TokenType → Nat
  | .Eof => 0
  | .Let => 1
  | .Const => 2
  | .Class => 3
  | .Function => 4
  | .Print => 5
  | .If => 6
  | .Else => 7
  | .While => 8
  | .For => 9
  | .Return => 10
  | .Super => 11
  | .This => 12
  | .True => 13
  | .False => 14
  | .LBrace => 15
  | .RBrace => 16
  | .LParen => 17
  | .RParen => 18
  | .Semicolon => 19
  | .Comma => 20
  | .Dot => 21
  | .Assign => 22
  | .PlusEq => 23
  | .SubEq => 24
  | .ModEq => 25
  | .DivEq => 26
  | .AndEq => 27
  | .OrEq => 28
  | .MulEq => 29
  | .XorEq => 30
  | .Or => 31
  | .LAnd => 32
  | .Eq => 33
  | .Ne => 34
  | .Gt => 35
  | .Gte => 36
  | .Lt => 37
  | .Lte => 38
  | .Plus => 39
  | .Minus => 40
  | .And => 41
  | .Xor => 42
  | .Times => 43
  | .Divide => 44
  | .Not => 45
  | .Number _ => 46
  | .String _ => 47
  | .Identifier _ => 48

/-- Modelled from the spec: the `Display` rendering of a token kind, used
only inside `Syntax` error message strings (the `impl Display for
TokenType` lives in the lexer module, outside the given sources).  No claim
depends on the exact strings chosen here. -/
def TokenType.display : TokenType → Str
  | .Eof => "Eof"
  | .Let => "let"
  | .Const => "const"
  | .Class => "class"
  | .Function => "function"
  | .Print => "print"
  | .If => "if"
  | .Else => "else"
  | .While => "while"
  | .For => "for"
  | .Return => "return"
  | .Super => "super"
  | .This => "this"
  | .True => "true"
  | .False => "false"
  | .LBrace => "LBRACE"
  | .RBrace => "RBRACE"
  | .LParen => "LPAREN"
  | .RParen => "RPAREN"
  | .Semicolon => ";"
  | .Comma => ","
  | .Dot => "."
  | .Assign => "="
  | .PlusEq => "+="
  | .SubEq => "-="
  | .ModEq => "%="
  | .DivEq => "/="
  | .AndEq => "&="
  | .OrEq => "|="
  | .MulEq => "*="
  | .XorEq => "^="
  | .Or => "or"
  | .LAnd => "&&"
  | .Eq => "=="
  | .Ne => "!="
  | .Gt => ">"
  | .Gte => ">="
  | .Lt => "<"
  | .Lte => "<="
  | .Plus => "+"
  | .Minus => "-"
  | .And => "&"
  | .Xor => "^"
  | .Times => "*"
  | .Divide => "/"
  | .Not => "!"
  | .Number _ => "Number"
  | .String x => x
  | .Identifier x => x

/-- A token together with its source span (`TokenInfo`): the kind plus
line, start offset and end offset.  The Rust field `end` is called `endp`
here (`end` is a Lean keyword). -/
structure TokenInfo where
  token : TokenType
  line : Nat
  start : Nat
  endp : Nat
  deriving DecidableEq

/-- `TokenInfo::new(token, line, start, end)`. -/
def TokenInfo.new (token : TokenType) (line start endp : Nat) : TokenInfo :=
  ⟨token, line, start, endp⟩

/-- Modelled from the spec: `TokenInfo::is` matches the current token
against a kind comparing only the discriminant, never the payload (spec
§4.1; the impl lives in the lexer module, outside the given sources). -/
def TokenInfo.is (t : TokenInfo) (kind : TokenType) : Bool :=
  t.token.tag == kind.tag

/-- Literal payloads (`LiteralType`): boolean, number, string. -/
inductive LiteralType where
  | Boolean : Bool → LiteralType
  | Number : F64 → LiteralType
  | String : String → LiteralType
  deriving DecidableEq

/-- Expressions (`Expr`).  Field order follows the Rust declarations:
`Unary` is operator then operand, `Binary`/`Logical` are left, operator,
right; `Assign` is name then value; `Get` is object then member name;
`Set` is object, member name, value. -/
inductive Expr where
  | Literal : LiteralType → Expr
  | Variable : String → Expr
  | Unary : TokenType → Expr → Expr
  | Binary : Expr → TokenType → Expr → Expr
  | Logical : Expr → TokenType → Expr → Expr
  | Grouping : Expr → Expr
  | Assign : String → Expr → Expr
  | Get : Expr → String → Expr
  | Set : Expr → String → Expr → Expr
  | Super : String → Expr
  deriving DecidableEq

/-- Statements (`Stmt`).  `Let` is name, optional value, `is_const` flag;
`Class` is name, optional superclass name, method list; `Function` is
name, parameter names, body; `For` is increment, condition, initializer,
body (the Rust struct-literal order in `for_statement`); `If` is
condition, truthy branch, optional falsy branch. -/
inductive Stmt where
  | Let : String → Option Expr → Bool → Stmt
  | Class : String → Option String → List Stmt → Stmt
  | Function : String → List String → Stmt → Stmt
  | Expr : Expr → Stmt
  | Print : Expr → Stmt
  | Return : Option Expr → Stmt
  | For : Option Expr → Option Expr → Option Stmt → Stmt → Stmt
  | If : Expr → Stmt → Option Stmt → Stmt
  | While : Expr → Stmt → Stmt
  | Block : List Stmt → Stmt

/-- The shared error vocabulary (`Error` in `src/error/error.rs`). -/
inductive Error where
  | Syntax : String → Error
  | Value : String → Error
  | Parse : String → Error
  | Runtime : String → Error
  | ZeroDivision : Error
  deriving DecidableEq

/-- `impl Display for Error` from `src/error/error.rs`, including the
pre-existing mislabeling of `Runtime` as "ParseError". -/
def Error.display : Error → String
  | .Syntax x => "SyntaxError: " ++ x
  | .Value x => "ValueError: " ++ x
  | .Parse x => "ParseError: " ++ x
  | .Runtime x => "ParseError: " ++ x
  | .ZeroDivision => "ZeroDivisionError: division by zero"

/-- True exactly for the `Syntax` error kind. -/
def Error.isSyntax : Error → Bool
  | .Syntax _ => true
  | _ => false

/-- Modelled from the spec: `ErrorInfo` pairs an error kind and message
with the source span (line, start offset, end offset) it is tagged with
(spec §6; the defining module is outside the given sources, but the parser
constructs it everywhere via `ErrorInfo::new(error, line, start, end)`). -/
structure ErrorInfo where
  error : Error
  line : Nat
  start : Nat
  endp : Nat
  deriving DecidableEq

/-- `ErrorInfo::new(error, line, start, end)`. -/
def ErrorInfo.new (error : Error) (line start endp : Nat) : ErrorInfo :=
  ⟨error, line, start, endp⟩

/-- Modelled from the spec: the lexical source is a pull-based token
producer that, once it reaches end-of-input, keeps yielding the
end-of-input marker on every subsequent request (spec §2, §6).  It is
modelled as the list of tokens it will yield; an exhausted list yields an
`Eof` token. -/
abbrev Lexer := List TokenInfo

/-- One pull from the lexical source: the next token and the rest of the
source.  An exhausted source keeps yielding the end-of-input marker. -/
def Lexer.next : Lexer → TokenInfo × Lexer
  | [] => (TokenInfo.new .Eof 0 0 0, [])
  | t :: ts => (t, ts)

/-- The parser state (`struct Parser`): the remaining lexical source, the
previous consumed token and the current lookahead token. -/
structure Parser where
  lexer : Lexer
  prev : TokenInfo
  curr : TokenInfo

/-- `Parser::new`: dummy `Eof` as the previous token, one token pulled from
the lexer as the current lookahead. -/
def Parser.new (lexer : Lexer) : Parser :=
  let n := lexer.next
  ⟨n.2, TokenInfo.new .Eof 0 0 0, n.1⟩

/-- Result of running a parsing function: a value plus the parser state
after the call (Rust methods take `&mut self`), or an error, or fuel
exhaustion (`timeout` — the Rust code has no such outcome; the
fuel-sufficiency theorem shows it never occurs at the canonical bound). -/
inductive PRes (α : Type) where
  | ok : α → Parser → PRes α
  | err : ErrorInfo → PRes α
  | timeout : PRes α

/-- Sequencing of parsing steps: the embedding of Rust `?`. -/
def PRes.bind {α β : Type} : PRes α → (α → Parser → PRes β) → PRes β
  | .ok v p, f => f v p
  | .err e, _ => .err e
  | .timeout, _ => .timeout

/-- `Parser::advance`: shift the current token into the previous slot, pull
a new current token from the lexer, and return the (now previous) token
kind. -/
def Parser.advance (p : Parser) : TokenType × Parser :=
  let n := p.lexer.next
  (p.curr.token, ⟨n.2, p.curr, n.1⟩)

/-- `Parser::should_be`: if the current token matches the wanted kind,
advance and return it, else fail with a `Syntax` expected-vs-found error
tagged with the current token's span. -/
def Parser.should_be (p : Parser) (token_type : TokenType) : PRes TokenType :=
  if p.curr.is token_type then
    let a := p.advance
    .ok a.1 a.2
  else
    .err (ErrorInfo.new
      (.Syntax ("Expected: \"" ++ token_type.display ++ "\" Found: \"" ++
        p.curr.token.display ++ "\""))
      p.curr.line p.curr.start p.curr.endp)

/-- `Parser::get_identifier`: if the current token is an identifier,
advance and return its name, else fail with a `Syntax` error tagged with
the current token's span. -/
def Parser.get_identifier (p : Parser) : PRes String :=
  match p.curr.token with
  | .Identifier x =>
    let a := p.advance
    .ok x a.2
  | _ =>
    .err (ErrorInfo.new
      (.Syntax ("Expected: \"Identifier\" Found: \"" ++ p.curr.token.display ++ "\""))
      p.curr.line p.curr.start p.curr.endp)

mutual

/-- `Parser::declaration`: dispatch on the current token kind.  Note that
the `Class` arm, unlike the `Function` arm, does not consume the keyword
before delegating (the source has no `advance` there). -/
def Parser.declaration : Nat → Parser → PRes Stmt
  | 0, _ => .timeout
  | fuel+1, p =>
    match p.curr.token with
    | .Let | .Const => Parser.let_declaration fuel p
    | .Class => Parser.class_declaration fuel p
    | .Function => Parser.function_declaration fuel (p.advance).2
    | _ => Parser.statement fuel p

/-- `Parser::let_declaration`. -/
def Parser.let_declaration : Nat → Parser → PRes Stmt
  | 0, _ => .timeout
  | fuel+1, p =>
    let is_const := p.curr.is .Const
    ((p.advance).2.get_identifier).bind fun name p₂ =>
    (if p₂.curr.is .Assign then
        (Parser.expression fuel (p₂.advance).2).bind fun v p₃ => .ok (some v) p₃
      else .ok none p₂).bind fun value p₄ =>
    (p₄.should_be .Semicolon).bind fun _ p₅ =>
    .ok (.Let name value is_const) p₅

/-- `Parser::class_declaration`: name, optional `< superclass` with the
self-inheritance check, `{`, methods, `}`. -/
def Parser.class_declaration : Nat → Parser → PRes Stmt
  | 0, _ => .timeout
  | fuel+1, p =>
    (p.get_identifier).bind fun name p₁ =>
    (if p₁.curr.is .Lt then
        ((p₁.advance).2.get_identifier).bind fun super_class_name p₂ =>
        if name = super_class_name then
          .err (ErrorInfo.new (.Parse "Cannot inherit from itself")
            p₂.curr.line p₂.curr.start p₂.curr.endp)
        else .ok (some super_class_name) p₂
      else .ok none p₁).bind fun super_class p₃ =>
    (p₃.should_be .LBrace).bind fun _ p₄ =>
    (Parser.class_methods_loop fuel [] p₄).bind fun methods p₅ =>
    (p₅.should_be .RBrace).bind fun _ p₆ =>
    .ok (.Class name super_class methods) p₆

/-- The method-collection `while` loop of `Parser::class_declaration`. -/
def Parser.class_methods_loop : Nat → List Stmt → Parser → PRes (List Stmt)
  | 0, _, _ => .timeout
  | fuel+1, methods, p =>
    if !p.curr.is .RBrace && !p.curr.is .Eof then
      (Parser.function_declaration fuel p).bind fun m p₁ =>
      Parser.class_methods_loop fuel (methods ++ [m]) p₁
    else .ok methods p

/-- `Parser::function_declaration`: name, `(`, parameters, `)`, body
block. -/
def Parser.function_declaration : Nat → Parser → PRes Stmt
  | 0, _ => .timeout
  | fuel+1, p =>
    (p.get_identifier).bind fun name p₁ =>
    (p₁.should_be .LParen).bind fun _ p₂ =>
    (if !p₂.curr.is .RParen then
        (p₂.get_identifier).bind fun first p₃ =>
        Parser.params_loop fuel [first] p₃
      else .ok [] p₂).bind fun params p₄ =>
    (p₄.should_be .RParen).bind fun _ p₅ =>
    (Parser.block_statement fuel p₅).bind fun body p₆ =>
    .ok (.Function name params body) p₆

/-- The comma-separated-parameters `while` loop of
`Parser::function_declaration`. -/
def Parser.params_loop : Nat → List String → Parser → PRes (List String)
  | 0, _, _ => .timeout
  | fuel+1, params, p =>
    if p.curr.is .Comma then
      ((p.advance).2.get_identifier).bind fun x p₁ =>
      Parser.params_loop fuel (params ++ [x]) p₁
    else .ok params p

/-- `Parser::statement`: dispatch on the current token kind. -/
def Parser.statement : Nat → Parser → PRes Stmt
  | 0, _ => .timeout
  | fuel+1, p =>
    match p.curr.token with
    | .Print => Parser.print_statement fuel p
    | .If => Parser.if_statement fuel p
    | .While => Parser.while_statement fuel p
    | .For => Parser.for_statement fuel p
    | .Return => Parser.return_statement fuel p
    | .LBrace => Parser.block_statement fuel p
    | _ => Parser.expression_statement fuel p

/-- `Parser::expression_statement`. -/
def Parser.expression_statement : Nat → Parser → PRes Stmt
  | 0, _ => .timeout
  | fuel+1, p =>
    (Parser.expression fuel p).bind fun expr p₁ =>
    (p₁.should_be .Semicolon).bind fun _ p₂ =>
    .ok (.Expr expr) p₂

/-- `Parser::print_statement`. -/
def Parser.print_statement : Nat → Parser → PRes Stmt
  | 0, _ => .timeout
  | fuel+1, p =>
    (Parser.expression fuel (p.advance).2).bind fun expr p₁ =>
    (p₁.should_be .Semicolon).bind fun _ p₂ =>
    .ok (.Print expr) p₂

/-- `Parser::return_statement`. -/
def Parser.return_statement : Nat → Parser → PRes Stmt
  | 0, _ => .timeout
  | fuel+1, p =>
    ((fun p₁ =>
      if !p₁.curr.is .Semicolon then
        (Parser.expression fuel p₁).bind fun v p₂ => .ok (some v) p₂
      else .ok none p₁) (p.advance).2).bind fun value p₃ =>
    (p₃.should_be .Semicolon).bind fun _ p₄ =>
    .ok (.Return value) p₄

/-- `Parser::for_statement`: `(`, optional initializer, optional condition,
`;`, optional increment, `)`, body. -/
def Parser.for_statement : Nat → Parser → PRes Stmt
  | 0, _ => .timeout
  | fuel+1, p =>
    ((p.advance).2.should_be .LParen).bind fun _ p₁ =>
    ((match p₁.curr.token with
      | .Semicolon => .ok none p₁
      | .Let => (Parser.let_declaration fuel p₁).bind fun s p₂ => .ok (some s) p₂
      | _ => (Parser.expression_statement fuel p₁).bind fun s p₂ =>
          .ok (some s) p₂ : PRes (Option Stmt))).bind fun initializer p₃ =>
    ((match p₃.curr.token with
      | .Semicolon => .ok none p₃
      | _ => (Parser.expression fuel p₃).bind fun e p₄ =>
          .ok (some e) p₄ : PRes (Option Expr))).bind fun condition p₅ =>
    (p₅.should_be .Semicolon).bind fun _ p₆ =>
    ((match p₆.curr.token with
      | .RParen => .ok none p₆
      | _ => (Parser.expression fuel p₆).bind fun e p₇ =>
          .ok (some e) p₇ : PRes (Option Expr))).bind fun increment p₈ =>
    (p₈.should_be .RParen).bind fun _ p₉ =>
    (Parser.statement fuel p₉).bind fun body p₁₀ =>
    .ok (.For increment condition initializer body) p₁₀

/-- `Parser::if_statement`. -/
def Parser.if_statement : Nat → Parser → PRes Stmt
  | 0, _ => .timeout
  | fuel+1, p =>
    ((p.advance).2.should_be .LParen).bind fun _ p₁ =>
    (Parser.expression fuel p₁).bind fun condition p₂ =>
    (p₂.should_be .RParen).bind fun _ p₃ =>
    (Parser.statement fuel p₃).bind fun truthy p₄ =>
    (if p₄.curr.is .Else then
        (Parser.statement fuel (p₄.advance).2).bind fun f p₅ => .ok (some f) p₅
      else .ok none p₄).bind fun falsy p₆ =>
    .ok (.If condition truthy falsy) p₆

/-- `Parser::while_statement`. -/
def Parser.while_statement : Nat → Parser → PRes Stmt
  | 0, _ => .timeout
  | fuel+1, p =>
    ((p.advance).2.should_be .LParen).bind fun _ p₁ =>
    (Parser.expression fuel p₁).bind fun condition p₂ =>
    (p₂.should_be .RParen).bind fun _ p₃ =>
    (Parser.statement fuel p₃).bind fun body p₄ =>
    .ok (.While condition body) p₄

/-- `Parser::block_statement`: `{`, declarations until `}` or end of
input, `}`. -/
def Parser.block_statement : Nat → Parser → PRes Stmt
  | 0, _ => .timeout
  | fuel+1, p =>
    (p.should_be .LBrace).bind fun _ p₁ =>
    (Parser.block_loop fuel [] p₁).bind fun stmt p₂ =>
    (p₂.should_be .RBrace).bind fun _ p₃ =>
    .ok (.Block stmt) p₃

/-- The declaration-collection `while` loop of `Parser::block_statement`. -/
def Parser.block_loop : Nat → List Stmt → Parser → PRes (List Stmt)
  | 0, _, _ => .timeout
  | fuel+1, stmt, p =>
    if !p.curr.is .RBrace && !p.curr.is .Eof then
      (Parser.declaration fuel p).bind fun s p₁ =>
      Parser.block_loop fuel (stmt ++ [s]) p₁
    else .ok stmt p

/-- `Parser::expression`. -/
def Parser.expression : Nat → Parser → PRes Expr
  | 0, _ => .timeout
  | fuel+1, p => Parser.assignment fuel p

/-- `Parser::assignment`: parse the left side at the `or` level; on `=` or
a compound-assignment operator, parse the right side (also at the `or`
level) and require the left side to be a variable or a property get. -/
def Parser.assignment : Nat → Parser → PRes Expr
  | 0, _ => .timeout
  | fuel+1, p =>
    (Parser.or fuel p).bind fun left p₁ =>
    match p₁.curr.token with
    | .Assign | .PlusEq | .SubEq | .ModEq | .DivEq
    | .AndEq | .OrEq | .MulEq | .XorEq =>
      (Parser.or fuel (p₁.advance).2).bind fun right p₂ =>
      match left with
      | .Variable name => .ok (.Assign name right) p₂
      | .Get object name => .ok (.Set object name right) p₂
      | _ =>
        .err (ErrorInfo.new (.Parse "Invalid assignment target")
          p₂.curr.line p₂.curr.start p₂.curr.endp)
    | _ => .ok left p₁

/-- `Parser::or`. -/
def Parser.or : Nat → Parser → PRes Expr
  | 0, _ => .timeout
  | fuel+1, p =>
    (Parser.and fuel p).bind fun left p₁ =>
    Parser.or_loop fuel left p₁

/-- The `while self.curr.is(Or)` loop of `Parser::or`. -/
def Parser.or_loop : Nat → Expr → Parser → PRes Expr
  | 0, _, _ => .timeout
  | fuel+1, left, p =>
    if p.curr.is .Or then
      let a := p.advance
      (Parser.and fuel a.2).bind fun right p₁ =>
      Parser.or_loop fuel (.Logical left a.1 right) p₁
    else .ok left p

/-- `Parser::and`. -/
def Parser.and : Nat → Parser → PRes Expr
  | 0, _ => .timeout
  | fuel+1, p =>
    (Parser.equality fuel p).bind fun left p₁ =>
    Parser.and_loop fuel left p₁

/-- The `while self.curr.is(LAnd)` loop of `Parser::and`. -/
def Parser.and_loop : Nat → Expr → Parser → PRes Expr
  | 0, _, _ => .timeout
  | fuel+1, left, p =>
    if p.curr.is .LAnd then
      let a := p.advance
      (Parser.equality fuel a.2).bind fun right p₁ =>
      Parser.and_loop fuel (.Logical left a.1 right) p₁
    else .ok left p

/-- `Parser::equality`. -/
def Parser.equality : Nat → Parser → PRes Expr
  | 0, _ => .timeout
  | fuel+1, p =>
    (Parser.comparison fuel p).bind fun left p₁ =>
    Parser.equality_loop fuel left p₁

/-- The `while let Eq | Ne` loop of `Parser::equality`. -/
def Parser.equality_loop : Nat → Expr → Parser → PRes Expr
  | 0, _, _ => .timeout
  | fuel+1, left, p =>
    match p.curr.token with
    | .Eq | .Ne =>
      let a := p.advance
      (Parser.comparison fuel a.2).bind fun right p₁ =>
      Parser.equality_loop fuel (.Logical left a.1 right) p₁
    | _ => .ok left p

/-- `Parser::comparison`. -/
def Parser.comparison : Nat → Parser → PRes Expr
  | 0, _ => .timeout
  | fuel+1, p =>
    (Parser.term fuel p).bind fun left p₁ =>
    Parser.comparison_loop fuel left p₁

/-- The `while let Gt | Gte | Lt | Lte` loop of `Parser::comparison`. -/
def Parser.comparison_loop : Nat → Expr → Parser → PRes Expr
  | 0, _, _ => .timeout
  | fuel+1, left, p =>
    match p.curr.token with
    | .Gt | .Gte | .Lt | .Lte =>
      let a := p.advance
      (Parser.term fuel a.2).bind fun right p₁ =>
      Parser.comparison_loop fuel (.Logical left a.1 right) p₁
    | _ => .ok left p

/-- `Parser::term`.  Note that this level's operator set includes the very
same `Or` token the `Parser::or` level matches on. -/
def Parser.term : Nat → Parser → PRes Expr
  | 0, _ => .timeout
  | fuel+1, p =>
    (Parser.factor fuel p).bind fun left p₁ =>
    Parser.term_loop fuel left p₁

/-- The `while let Plus | Minus | Or | And | Xor` loop of `Parser::term`,
producing `Binary` nodes. -/
def Parser.term_loop : Nat → Expr → Parser → PRes Expr
  | 0, _, _ => .timeout
  | fuel+1, left, p =>
    match p.curr.token with
    | .Plus | .Minus | .Or | .And | .Xor =>
      let a := p.advance
      (Parser.factor fuel a.2).bind fun right p₁ =>
      Parser.term_loop fuel (.Binary left a.1 right) p₁
    | _ => .ok left p

/-- `Parser::factor`. -/
def Parser.factor : Nat → Parser → PRes Expr
  | 0, _ => .timeout
  | fuel+1, p =>
    (Parser.unary fuel p).bind fun left p₁ =>
    Parser.factor_loop fuel left p₁

/-- The `while let Times | Divide` loop of `Parser::factor`, producing
`Binary` nodes. -/
def Parser.factor_loop : Nat → Expr → Parser → PRes Expr
  | 0, _, _ => .timeout
  | fuel+1, left, p =>
    match p.curr.token with
    | .Times | .Divide =>
      let a := p.advance
      (Parser.unary fuel a.2).bind fun right p₁ =>
      Parser.factor_loop fuel (.Binary left a.1 right) p₁
    | _ => .ok left p

/-- `Parser::unary`: right-recursive on `Minus | Not | Plus`, else the call
level. -/
def Parser.unary : Nat → Parser → PRes Expr
  | 0, _ => .timeout
  | fuel+1, p =>
    match p.curr.token with
    | .Minus | .Not | .Plus =>
      let a := p.advance
      (Parser.unary fuel a.2).bind fun right p₁ =>
      .ok (.Unary a.1 right) p₁
    | _ => Parser.call fuel p

/-- `Parser::call`: a primary followed by the postfix loop. -/
def Parser.call : Nat → Parser → PRes Expr
  | 0, _ => .timeout
  | fuel+1, p =>
    (Parser.primary fuel p).bind fun expr p₁ =>
    Parser.call_loop fuel expr p₁

/-- The postfix `loop` of `Parser::call`.  In the `LParen` arm the source
consumes the `(`, parses the argument list into a local that is then
dropped, does not consume the matching `)`, and leaves `expr`
unchanged. -/
def Parser.call_loop : Nat → Expr → Parser → PRes Expr
  | 0, _, _ => .timeout
  | fuel+1, expr, p =>
    match p.curr.token with
    | .LParen =>
      ((fun p₁ =>
        if !p₁.curr.is .RParen then
          (Parser.call_args_loop fuel [] p₁).bind fun _args p₂ => .ok () p₂
        else .ok () p₁) (p.advance).2).bind fun _ p₃ =>
      Parser.call_loop fuel expr p₃
    | .Dot =>
      ((p.advance).2.get_identifier).bind fun name p₁ =>
      Parser.call_loop fuel (.Get expr name) p₁
    | _ => .ok expr p

/-- The argument-collection `loop` of `Parser::call`: push an expression,
stop unless a comma follows. -/
def Parser.call_args_loop : Nat → List Expr → Parser → PRes (List Expr)
  | 0, _, _ => .timeout
  | fuel+1, args, p =>
    (Parser.expression fuel p).bind fun e p₁ =>
    if p₁.curr.is .Comma then
      Parser.call_args_loop fuel (args ++ [e]) (p₁.advance).2
    else .ok (args ++ [e]) p₁

/-- `Parser::primary`.  In the catch-all arm the source advances past the
offending token first and only then reads `self.curr` — so the error span
is the span of the token after the offending one. -/
def Parser.primary : Nat → Parser → PRes Expr
  | 0, _ => .timeout
  | fuel+1, p =>
    match p.curr.token with
    | .True => .ok (.Literal (.Boolean true)) (p.advance).2
    | .False => .ok (.Literal (.Boolean false)) (p.advance).2
    | .Number x => .ok (.Literal (.Number x)) (p.advance).2
    | .String x => .ok (.Literal (.String x)) (p.advance).2
    | .Identifier x => .ok (.Variable x) (p.advance).2
    | .LParen =>
      (Parser.expression fuel (p.advance).2).bind fun expr p₁ =>
      (p₁.should_be .RParen).bind fun _ p₂ =>
      .ok (.Grouping expr) p₂
    | .Super =>
      ((p.advance).2.should_be .Dot).bind fun _ p₁ =>
      (p₁.get_identifier).bind fun name p₂ =>
      .ok (.Super name) p₂
    | .This => .ok (.Variable "this") (p.advance).2
    | _ =>
      ((fun p₁ =>
        .err (ErrorInfo.new (.Parse "Expect expression.")
          p₁.curr.line p₁.curr.start p₁.curr.endp)) (p.advance).2 : PRes Expr)

/-- The `while !self.curr.is(Eof)` loop of `Parser::parse_program`. -/
def Parser.parse_program_loop : Nat → List Stmt → Parser → PRes (List Stmt)
  | 0, _, _ => .timeout
  | fuel+1, statements, p =>
    if !p.curr.is .Eof then
      (Parser.declaration fuel p).bind fun s p₁ =>
      Parser.parse_program_loop fuel (statements ++ [s]) p₁
    else .ok statements p

end

/-- Canonical fuel bound for a token stream: ample for the fuel-sufficiency
theorem below. -/
def fuel_bound (ts : Lexer) : Nat := 20 * ts.length + 40

/-- `Parser::parse_program` run on a fresh parser over the given token
stream, at the canonical fuel bound. -/
def parse_program (ts : Lexer) : PRes (List Stmt) :=
  Parser.parse_program_loop (fuel_bound ts) [] (Parser.new ts)

/-- A token of the given kind with the span line 1, offsets 0 to 1 (used
for concrete inputs whose spans are irrelevant). -/
def tk (t : TokenType) : TokenInfo := TokenInfo.new t 1 0 1

/-- An identifier token with an irrelevant span. -/
def idT (s : String) : TokenInfo := tk (.Identifier s)

/-- A number token with an irrelevant span. -/
def numT (q : F64) : TokenInfo := tk (.Number q)

/-- Recognizer for `Logical` expression nodes. -/
def isLogicalNode : Expr → Bool
  | .Logical _ _ _ => true
  | _ => false

/-- Recognizer for the operator set of the `if let` in `Parser::assignment`:
`=` and the compound-assignment operators. -/
def isAssignOp : TokenType → Bool
  | .Assign | .PlusEq | .SubEq | .ModEq | .DivEq
  | .AndEq | .OrEq | .MulEq | .XorEq => true
  | _ => false

/-- Termination measure on parser states: the number of tokens still to be
handed out by the lexical source, counting the lookahead token unless it is
already the end-of-input marker.  Every accepted token strictly decreases
it, and it never increases. -/
def rem (p : Parser) : Nat :=
  p.lexer.length + (if p.curr.token.tag = TokenType.Eof.tag then 0 else 1)

/-- The result did not run out of fuel. -/
def NoTimeout {α : Type} (r : PRes α) : Prop := r ≠ PRes.timeout

/-- On success the parsing step consumed at least `c` tokens (the measure
dropped by at least `c`). -/
def Consumes {α : Type} (c : Nat) (p : Parser) (r : PRes α) : Prop :=
  ∀ v q, r = PRes.ok v q → rem q + c ≤ rem p

/-- Combined behavioral spec of a parsing step run from state `p`: it did
not run out of fuel, and on success it consumed at least `c` tokens. -/
def Sp {α : Type} (c : Nat) (p : Parser) (r : PRes α) : Prop :=
  NoTimeout r ∧ Consumes c p r

/-- Fuel-sufficiency spec of a production: from any state of measure at
most `n`, fuel `rank + 20 * n` suffices. -/
def FnSpec {α : Type} (rank c : Nat) (f : Nat → Parser → PRes α) (n : Nat) : Prop :=
  ∀ p, rem p ≤ n → ∀ fuel, rank + 20 * n ≤ fuel → Sp c p (f fuel p)

/-- `FnSpec` for the loop companions, which carry an accumulator. -/
def FnSpecA {α β : Type} (rank c : Nat) (f : Nat → α → Parser → PRes β) (n : Nat) : Prop :=
  ∀ a p, rem p ≤ n → ∀ fuel, rank + 20 * n ≤ fuel → Sp c p (f fuel a p)

/-- `FnSpec` under the guard that the current token is not the end-of-input
marker — the form needed for the productions that `advance` past their
leading keyword unconditionally; their callers dispatch on that keyword. -/
def FnSpecNE {α : Type} (rank c : Nat) (f : Nat → Parser → PRes α) (n : Nat) : Prop :=
  ∀ p, p.curr.token.tag ≠ TokenType.Eof.tag → rem p ≤ n →
    ∀ fuel, rank + 20 * n ≤ fuel → Sp c p (f fuel p)

/-- The conjunction of the fuel-sufficiency specs of every production, at
measure bound `n`; proved for all `n` by strong induction. -/
structure AllSpecs (n : Nat) : Prop where
  primary : FnSpec 1 1 Parser.primary n
  call_loop : FnSpecA 1 0 Parser.call_loop n
  call_args_loop : FnSpecA 12 1 Parser.call_args_loop n
  call : FnSpec 2 1 Parser.call n
  unary : FnSpec 3 1 Parser.unary n
  factor_loop : FnSpecA 1 0 Parser.factor_loop n
  factor : FnSpec 4 1 Parser.factor n
  term_loop : FnSpecA 1 0 Parser.term_loop n
  term : FnSpec 5 1 Parser.term n
  comparison_loop : FnSpecA 1 0 Parser.comparison_loop n
  comparison : FnSpec 6 1 Parser.comparison n
  equality_loop : FnSpecA 1 0 Parser.equality_loop n
  equality : FnSpec 7 1 Parser.equality n
  and_loop : FnSpecA 1 0 Parser.and_loop n
  and : FnSpec 8 1 Parser.and n
  or_loop : FnSpecA 1 0 Parser.or_loop n
  or : FnSpec 9 1 Parser.or n
  assignment : FnSpec 10 1 Parser.assignment n
  expression : FnSpec 11 1 Parser.expression n
  expression_statement : FnSpec 12 1 Parser.expression_statement n
  block_loop : FnSpecA 15 0 Parser.block_loop n
  block_statement : FnSpec 1 1 Parser.block_statement n
  print_statement : FnSpecNE 1 1 Parser.print_statement n
  return_statement : FnSpecNE 1 1 Parser.return_statement n
  while_statement : FnSpecNE 1 1 Parser.while_statement n
  if_statement : FnSpecNE 1 1 Parser.if_statement n
  for_statement : FnSpecNE 1 1 Parser.for_statement n
  let_declaration : FnSpecNE 1 1 Parser.let_declaration n
  params_loop : FnSpecA 1 0 Parser.params_loop n
  function_declaration : FnSpec 1 1 Parser.function_declaration n
  class_methods_loop : FnSpecA 2 0 Parser.class_methods_loop n
  class_declaration : FnSpec 1 1 Parser.class_declaration n
  statement : FnSpec 13 1 Parser.statement n
  declaration : FnSpec 14 1 Parser.declaration n
  parse_program_loop : FnSpecA 15 0 Parser.parse_program_loop n

/-- Claim C1: the claim states that parsing the token sequence
`class A < B { }` succeeds with a class statement named "A" and superclass
"B".  In fact the code fails here with a `Syntax` error: the `declaration`
dispatch never consumes the `class` keyword (unlike the `Function` arm),
so `class_declaration` calls `get_identifier` while the current token is
still the `class` keyword.  This theorem evaluates the parser at the
claimed input and exhibits the `Syntax` failure. -/
theorem c1_class_decl_with_superclass_fails_syntax :
    ∃ e : ErrorInfo,
      parse_program [tk .Class, idT "A", tk .Lt, idT "B", tk .LBrace, tk .RBrace, tk .Eof]
          = .err e
        ∧ e.error.isSyntax = true :=
  ⟨_, rfl, rfl⟩

/-- Claim C2: the claim states that every successfully returning production
has consumed the closer of every `(`/`{` it consumed, in particular that
the call production consumes the `)` matching the `(` it consumed.  In
fact `Parser::call` parses the argument list but never consumes the `)`:
on the tokens of `f()` it returns successfully with the `)` still the
current token, and in consequence the whole program `f();` fails with a
`Syntax` error instead of parsing. -/
theorem c2_call_returns_with_rparen_unconsumed :
    Parser.call 50 (Parser.new [idT "f", tk .LParen, tk .RParen, tk .Semicolon, tk .Eof])
        = .ok (.Variable "f") ⟨[tk .Semicolon, tk .Eof], tk .LParen, tk .RParen⟩
      ∧ ∃ e : ErrorInfo,
          parse_program [idT "f", tk .LParen, tk .RParen, tk .Semicolon, tk .Eof] = .err e
            ∧ e.error.isSyntax = true :=
  ⟨rfl, _, rfl, rfl⟩

/-- Claim C3: the claim states that parsing `class A < A { }` fails with a
`Parse` error whose message is "cannot inherit from itself".  In fact the
parse fails earlier, with a `Syntax` error at the unconsumed `class`
keyword (the same missing-`advance` slip as in C1), so the self-inheritance
check of `class_declaration` is never reached; no `Parse` error of any
message is produced. -/
theorem c3_self_inheritance_check_unreachable :
    ∃ e : ErrorInfo,
      parse_program [tk .Class, idT "A", tk .Lt, idT "A", tk .LBrace, tk .RBrace, tk .Eof]
          = .err e
        ∧ e.error.isSyntax = true
        ∧ ∀ m : Str, e.error ≠ .Parse m :=
  ⟨_, rfl, rfl, fun _ h => Error.noConfusion h⟩

/-- Claim C4, counterexample: the claim states that an operand, the
logical-or token and another operand produce a `Logical` node.  On the
tokens of `a or b;` the parser in fact produces a `Binary` node (the
`term` level's operator set also contains the `Or` token, and `term` runs
below `or` in the ladder, so it consumes the operator first), and a
`Binary` node is not a `Logical` node. -/
theorem c4_or_yields_binary_counterexample :
    parse_program [idT "a", tk .Or, idT "b", tk .Semicolon, tk .Eof]
        = .ok [.Expr (.Binary (.Variable "a") .Or (.Variable "b"))] ⟨[], tk .Semicolon, tk .Eof⟩
      ∧ isLogicalNode (.Binary (.Variable "a") .Or (.Variable "b")) = false :=
  ⟨rfl, rfl⟩

/-- Claim C4, amended: for any two identifier operands around the `Or`
token, the expression grammar produces a left-to-right `Binary` node built
at the `term` (additive/bitwise) level, whose children are the two parsed
operands; the logical-or level never sees the operator. -/
theorem c4_or_yields_binary_node :
    ∀ x y : Str,
      parse_program [idT x, tk .Or, idT y, tk .Semicolon, tk .Eof]
        = .ok [.Expr (.Binary (.Variable x) .Or (.Variable y))] ⟨[], tk .Semicolon, tk .Eof⟩ :=
  fun _ _ => rfl

/-- Claim C5: after parsing a callee followed by `(`, the call production
parses the comma-separated argument expressions but discards them — the
expression it returns is exactly the callee expression, with no call node
and no attached argument list (here shown for any callee name and any two
numeric arguments; the final state shows the arguments were consumed). -/
theorem c5_call_discards_arguments :
    ∀ (f : Str) (n m : F64),
      Parser.call 50 (Parser.new [idT f, tk .LParen, numT n, tk .Comma, numT m, tk .RParen])
        = .ok (.Variable f) ⟨[], numT m, tk .RParen⟩ :=
  fun _ _ _ => rfl

/-- Claim C6, counterexample: the claim states the error message is
"invalid assignment target"; the code's message is capitalized: parsing
`1 = 2;` fails with a `Parse` error whose message is exactly
"Invalid assignment target", which is a different string. -/
theorem c6_invalid_assignment_message_counterexample :
    parse_program [numT 1, tk .Assign, numT 2, tk .Semicolon, tk .Eof]
        = .err (ErrorInfo.new (.Parse "Invalid assignment target") 1 0 1)
      ∧ "Invalid assignment target" ≠ "invalid assignment target" :=
  ⟨rfl, by decide⟩

set_option linter.unusedTactic false in
/-- Claim C6, amended: in the assignment production, after an `=` or
compound-assignment operator and a parsed right-hand side, a left-hand
variable reference yields an `Assign` node, a left-hand property get
yields a `Set` node, and every other left-hand shape fails with a `Parse`
error whose message is "Invalid assignment target" (capital I); no other
left-hand shape is ever silently accepted. -/
theorem c6_assignment_target_classification :
    ∀ (fuel : Nat) (p p₁ p₂ : Parser) (left right : Expr),
      Parser.or fuel p = .ok left p₁ →
      isAssignOp p₁.curr.token = true →
      Parser.or fuel (p₁.advance).2 = .ok right p₂ →
      Parser.assignment (fuel+1) p =
        (match left with
          | .Variable name => .ok (.Assign name right) p₂
          | .Get object name => .ok (.Set object name right) p₂
          | _ => .err (ErrorInfo.new (.Parse "Invalid assignment target")
              p₂.curr.line p₂.curr.start p₂.curr.endp)) := by
  intro fuel p p₁ p₂ left right h1 hop h3
  simp only [Parser.assignment, h1, PRes.bind]
  revert hop
  cases htok : p₁.curr.token <;> intro hop <;>
    first
      | (rw [h3] <;> cases left <;> rfl)
      | simp [isAssignOp] at hop

/-- Witness for C6: the classification theorem applied at the concrete
tokens of `1 = 2;`, whose left-hand side is a number literal, so the
parse fails with the capitalized `Parse` error. -/
theorem c6_assignment_target_classification_witness :
    Parser.assignment 50 (Parser.new [numT 1, tk .Assign, numT 2, tk .Semicolon, tk .Eof])
      = .err (ErrorInfo.new (.Parse "Invalid assignment target") 1 0 1) :=
  c6_assignment_target_classification 49
    (Parser.new [numT 1, tk .Assign, numT 2, tk .Semicolon, tk .Eof])
    ⟨[numT 2, tk .Semicolon, tk .Eof], numT 1, tk .Assign⟩
    ⟨[tk .Eof], numT 2, tk .Semicolon⟩
    (.Literal (.Number 1)) (.Literal (.Number 2)) rfl rfl rfl

/-- Claim C7, counterexample: the claim states the "expect expression"
`Parse` error is tagged with the span of the offending token.  With an
offending comma spanning (line 1, 0..1) followed by the end-of-input token
spanning (line 9, 99..100), the error is in fact tagged (9, 99..100) — the
span of the token after the offending one — which differs from the
offending token's span. -/
theorem c7_expect_expression_span_counterexample :
    parse_program [TokenInfo.new .Comma 1 0 1, TokenInfo.new .Eof 9 99 100]
        = .err (ErrorInfo.new (.Parse "Expect expression.") 9 99 100)
      ∧ ErrorInfo.new (.Parse "Expect expression.") 9 99 100
          ≠ ErrorInfo.new (.Parse "Expect expression.") 1 0 1 :=
  ⟨rfl, by decide⟩

/-- Claim C7, amended: the catch-all arm of `primary` consumes the
offending token first and only then reads the current token, so the
"Expect expression." `Parse` error is tagged with the span of the token
immediately after the offending token, whatever either span is. -/
theorem c7_expect_expression_span_next_token :
    ∀ (l₁ s₁ e₁ l₂ s₂ e₂ : Nat),
      parse_program [TokenInfo.new .Comma l₁ s₁ e₁, TokenInfo.new .Eof l₂ s₂ e₂]
        = .err (ErrorInfo.new (.Parse "Expect expression.") l₂ s₂ e₂) := by
  intros
  rfl

/-- Claim C8: the token sequence of `-(1 / (2 * 32));` parses to exactly
one statement, an expression statement wrapping
`Unary(Minus, Grouping(Binary(1, Divide, Grouping(Binary(2, Times, 32)))))`,
with both grouping nodes preserved. -/
theorem c8_unary_grouping_ast :
    parse_program [tk .Minus, tk .LParen, numT 1, tk .Divide, tk .LParen, numT 2,
        tk .Times, numT 32, tk .RParen, tk .RParen, tk .Semicolon, tk .Eof]
      = .ok [.Expr (.Unary .Minus (.Grouping (.Binary (.Literal (.Number 1)) .Divide
          (.Grouping (.Binary (.Literal (.Number 2)) .Times (.Literal (.Number 32)))))))]
        ⟨[], tk .Semicolon, tk .Eof⟩ :=
  rfl

/-- Claim C10: on a token source whose very first token is the end-of-input
marker, `parse_program` succeeds with the empty statement list; the final
state shows no token beyond the single lookahead pull of `Parser::new` was
requested (the remaining source is returned untouched). -/
theorem c10_empty_program_ok :
    ∀ (l s e : Nat) (rest : Lexer),
      parse_program (TokenInfo.new .Eof l s e :: rest)
        = .ok [] ⟨rest, TokenInfo.new .Eof 0 0 0, TokenInfo.new .Eof l s e⟩ := by
  intro l s e rest
  simp only [parse_program]
  rw [show fuel_bound (TokenInfo.new .Eof l s e :: rest) = (20 * rest.length + 59) + 1 from by
    simp [fuel_bound]; ring]
  rfl

theorem rem_advance_le (p : Parser) : rem (p.advance).2 ≤ rem p := by
  unfold rem Parser.advance Lexer.next
  cases p.lexer with
  | nil => simp [TokenInfo.new, TokenType.tag]
  | cons t ts => simp; split_ifs <;> omega

theorem rem_advance_lt (p : Parser) (h : p.curr.token.tag ≠ TokenType.Eof.tag) :
    rem (p.advance).2 + 1 ≤ rem p := by
  unfold rem Parser.advance Lexer.next
  cases p.lexer with
  | nil => simp [TokenInfo.new, if_neg h]
  | cons t ts => simp [h]; split_ifs <;> omega

theorem sp_ok {α : Type} (c : Nat) (v : α) (p q : Parser) (h : rem q + c ≤ rem p) :
    Sp c p (.ok v q) := by
  refine ⟨by simp [NoTimeout], ?_⟩
  intro w s hw
  cases hw
  exact h

theorem sp_err {α : Type} (c : Nat) (p : Parser) (e : ErrorInfo) :
    Sp (α := α) c p (.err e) := by
  refine ⟨by simp [NoTimeout], ?_⟩
  intro w s hw
  nomatch hw

theorem sp_bind {α β : Type} {c₁ c₂ : Nat} {p : Parser} {r : PRes α}
    {f : α → Parser → PRes β}
    (h₁ : Sp c₁ p r)
    (h₂ : ∀ v q, r = .ok v q → rem q + c₁ ≤ rem p → Sp c₂ q (f v q)) :
    Sp (c₁ + c₂) p (r.bind f) := by
  obtain ⟨nt, co⟩ := h₁
  cases r with
  | ok v q =>
    obtain ⟨nt₂, co₂⟩ := h₂ v q rfl (co v q rfl)
    refine ⟨by simpa [PRes.bind, NoTimeout] using nt₂, ?_⟩
    intro w s hw
    simp only [PRes.bind] at hw
    have hvq := co v q rfl
    have hws := co₂ w s hw
    omega
  | err e =>
    exact ⟨by simp [PRes.bind, NoTimeout], fun w s hw => by simp [PRes.bind] at hw⟩
  | timeout => exact absurd rfl nt

theorem sp_mono {α : Type} {c c' : Nat} {p : Parser} {r : PRes α}
    (h : Sp c p r) (hc : c' ≤ c) : Sp c' p r := by
  refine ⟨h.1, ?_⟩
  intro v q hv
  have := h.2 v q hv
  omega

theorem sp_bind_1_0 {α β : Type} {p : Parser} {r : PRes α} {f : α → Parser → PRes β}
    (h₁ : Sp 1 p r)
    (h₂ : ∀ v q, r = .ok v q → rem q + 1 ≤ rem p → Sp 0 q (f v q)) :
    Sp 1 p (r.bind f) :=
  sp_bind h₁ h₂

theorem sp_bind_0_0 {α β : Type} {p : Parser} {r : PRes α} {f : α → Parser → PRes β}
    (h₁ : Sp 0 p r)
    (h₂ : ∀ v q, r = .ok v q → rem q ≤ rem p → Sp 0 q (f v q)) :
    Sp 0 p (r.bind f) := by
  refine sp_mono (@sp_bind _ _ 0 0 _ _ _ h₁ ?_) (by omega)
  intro v q hv hq
  exact h₂ v q hv (by omega)

theorem sp_of_le {α : Type} {c : Nat} {p q : Parser} {r : PRes α}
    (h : Sp c q r) (hq : rem q ≤ rem p) : Sp c p r := by
  refine ⟨h.1, ?_⟩
  intro v s hv
  have := h.2 v s hv
  omega

theorem sp_of_lt {α : Type} (c : Nat) {p q : Parser} {r : PRes α}
    (h : Sp c q r) (hq : rem q + 1 ≤ rem p) : Sp 1 p r := by
  refine ⟨h.1, ?_⟩
  intro v s hv
  have := h.2 v s hv
  omega

theorem is_tag_eq {p : Parser} {t : TokenType} (h : p.curr.is t = true) :
    p.curr.token.tag = t.tag := by
  simpa [TokenInfo.is] using h

theorem sp_should_be (p : Parser) (t : TokenType) (ht : t.tag ≠ TokenType.Eof.tag) :
    Sp 1 p (p.should_be t) := by
  unfold Parser.should_be
  split
  · rename_i his
    refine ⟨by simp [NoTimeout], ?_⟩
    intro v q hv
    cases hv
    exact rem_advance_lt p (by rw [is_tag_eq his]; exact ht)
  · exact sp_err 1 p _

theorem sp_get_identifier (p : Parser) : Sp 1 p p.get_identifier := by
  unfold Parser.get_identifier
  split
  · rename_i x hx
    refine ⟨by simp [NoTimeout], ?_⟩
    intro v q hv
    cases hv
    exact rem_advance_lt p (by rw [hx]; simp [TokenType.tag])
  · exact sp_err 1 p _

theorem primary_spec (n : Nat) (IH : ∀ m, m < n → AllSpecs m) :
    FnSpec 1 1 Parser.primary n := by
  intro p hp fuel hfuel
  obtain ⟨k, rfl⟩ : ∃ k, fuel = k + 1 := ⟨fuel - 1, by omega⟩
  simp only [Parser.primary]
  split
  · rename_i heq
    exact sp_ok _ _ _ _ (rem_advance_lt p (by rw [heq]; decide))
  · rename_i heq
    exact sp_ok _ _ _ _ (rem_advance_lt p (by rw [heq]; decide))
  · rename_i x heq
    exact sp_ok _ _ _ _ (rem_advance_lt p (by rw [heq]; simp [TokenType.tag]))
  · rename_i x heq
    exact sp_ok _ _ _ _ (rem_advance_lt p (by rw [heq]; simp [TokenType.tag]))
  · rename_i x heq
    exact sp_ok _ _ _ _ (rem_advance_lt p (by rw [heq]; simp [TokenType.tag]))
  · rename_i heq
    have hlt : rem (p.advance).2 + 1 ≤ rem p := rem_advance_lt p (by rw [heq]; decide)
    have hexp := (IH (rem (p.advance).2) (by omega)).expression (p.advance).2 le_rfl k (by omega)
    refine sp_of_lt 1 ?_ hlt
    refine sp_bind_1_0 hexp (fun expr p₁ h₁ hq₁ => ?_)
    exact sp_mono (sp_bind (sp_should_be p₁ .RParen (by decide))
      (fun v q hv hq => sp_ok 0 _ q q le_rfl)) (by omega)
  · rename_i heq
    have hlt : rem (p.advance).2 + 1 ≤ rem p := rem_advance_lt p (by rw [heq]; decide)
    refine sp_of_lt 2 ?_ hlt
    exact sp_bind (sp_should_be _ .Dot (by decide))
      (fun v q hv hq => sp_bind (sp_get_identifier q)
        (fun w s hw hq₂ => sp_ok 0 _ s s le_rfl))
  · rename_i heq
    exact sp_ok _ _ _ _ (rem_advance_lt p (by rw [heq]; decide))
  · exact sp_err 1 p _

theorem call_args_loop_spec (n : Nat) (IH : ∀ m, m < n → AllSpecs m)
    (hexpression : FnSpec 11 1 Parser.expression n) :
    FnSpecA 12 1 Parser.call_args_loop n := by
  intro args p hp fuel hfuel
  obtain ⟨k, rfl⟩ : ∃ k, fuel = k + 1 := ⟨fuel - 1, by omega⟩
  simp only [Parser.call_args_loop]
  refine sp_bind_1_0 (hexpression p hp k (by omega)) (fun e q hv hq => ?_)
  split
  · rename_i his
    have hlt : rem (q.advance).2 + 1 ≤ rem q :=
      rem_advance_lt q (by rw [is_tag_eq his]; decide)
    refine sp_mono (sp_of_lt 1 ?_ hlt) (by omega)
    exact (IH (rem (q.advance).2) (by omega)).call_args_loop _ (q.advance).2 le_rfl k (by omega)
  · exact sp_ok 0 _ q q le_rfl

theorem call_loop_spec (n : Nat) (IH : ∀ m, m < n → AllSpecs m) :
    FnSpecA 1 0 Parser.call_loop n := by
  intro e p hp fuel hfuel
  obtain ⟨k, rfl⟩ : ∃ k, fuel = k + 1 := ⟨fuel - 1, by omega⟩
  simp only [Parser.call_loop]
  split
  · rename_i heq
    have hlt : rem (p.advance).2 + 1 ≤ rem p := rem_advance_lt p (by rw [heq]; decide)
    refine sp_mono (sp_of_lt 0 ?_ hlt) (by omega)
    refine sp_bind_0_0 ?_ (fun u q hu hq => ?_)
    · split
      · refine sp_mono (sp_bind
          ((IH (rem (p.advance).2) (by omega)).call_args_loop [] (p.advance).2 le_rfl k
            (by omega))
          (fun a s ha hs => sp_ok 0 _ s s le_rfl)) (by omega)
      · exact sp_ok 0 _ _ _ le_rfl
    · exact (IH (rem q) (by omega)).call_loop e q le_rfl k (by omega)
  · rename_i heq
    have hlt : rem (p.advance).2 + 1 ≤ rem p := rem_advance_lt p (by rw [heq]; decide)
    refine sp_mono (sp_of_lt 1 ?_ hlt) (by omega)
    refine sp_bind_1_0 (sp_get_identifier _) (fun name q hv hq => ?_)
    exact (IH (rem q) (by omega)).call_loop _ q le_rfl k (by omega)
  · exact sp_ok 0 _ _ _ le_rfl

theorem call_spec (n : Nat)
    (hprimary : FnSpec 1 1 Parser.primary n) (hloop : FnSpecA 1 0 Parser.call_loop n) :
    FnSpec 2 1 Parser.call n := by
  intro p hp fuel hfuel
  obtain ⟨k, rfl⟩ : ∃ k, fuel = k + 1 := ⟨fuel - 1, by omega⟩
  simp only [Parser.call]
  refine sp_bind_1_0 (hprimary p hp k (by omega)) (fun e q hv hq => ?_)
  exact hloop e q (by omega) k (by omega)

theorem unary_spec (n : Nat) (IH : ∀ m, m < n → AllSpecs m)
    (hcall : FnSpec 2 1 Parser.call n) :
    FnSpec 3 1 Parser.unary n := by
  intro p hp fuel hfuel
  obtain ⟨k, rfl⟩ : ∃ k, fuel = k + 1 := ⟨fuel - 1, by omega⟩
  simp only [Parser.unary]
  split
  all_goals first
    | exact hcall p hp k (by omega)
    | (rename_i heq
       have hlt : rem (p.advance).2 + 1 ≤ rem p := rem_advance_lt p (by rw [heq]; decide)
       refine sp_of_lt 1 ?_ hlt
       refine sp_bind_1_0 ((IH (rem (p.advance).2) (by omega)).unary (p.advance).2 le_rfl k
         (by omega)) (fun right q hv hq => ?_)
       exact sp_ok 0 _ q q le_rfl)

theorem factor_loop_spec (n : Nat) (IH : ∀ m, m < n → AllSpecs m) :
    FnSpecA 1 0 Parser.factor_loop n := by
  intro e p hp fuel hfuel
  obtain ⟨k, rfl⟩ : ∃ k, fuel = k + 1 := ⟨fuel - 1, by omega⟩
  simp only [Parser.factor_loop]
  split
  all_goals first
    | exact sp_ok 0 _ _ _ le_rfl
    | (rename_i heq
       have hlt : rem (p.advance).2 + 1 ≤ rem p := rem_advance_lt p (by rw [heq]; decide)
       refine sp_mono (sp_of_lt 1 ?_ hlt) (by omega)
       refine sp_bind_1_0 ((IH (rem (p.advance).2) (by omega)).unary (p.advance).2 le_rfl k
         (by omega)) (fun right q hv hq => ?_)
       exact (IH (rem q) (by omega)).factor_loop _ q le_rfl k (by omega))

theorem factor_spec (n : Nat)
    (hunary : FnSpec 3 1 Parser.unary n) (hloop : FnSpecA 1 0 Parser.factor_loop n) :
    FnSpec 4 1 Parser.factor n := by
  intro p hp fuel hfuel
  obtain ⟨k, rfl⟩ : ∃ k, fuel = k + 1 := ⟨fuel - 1, by omega⟩
  simp only [Parser.factor]
  refine sp_bind_1_0 (hunary p hp k (by omega)) (fun left q hv hq => ?_)
  exact hloop left q (by omega) k (by omega)

theorem term_loop_spec (n : Nat) (IH : ∀ m, m < n → AllSpecs m) :
    FnSpecA 1 0 Parser.term_loop n := by
  intro e p hp fuel hfuel
  obtain ⟨k, rfl⟩ : ∃ k, fuel = k + 1 := ⟨fuel - 1, by omega⟩
  simp only [Parser.term_loop]
  split
  all_goals first
    | exact sp_ok 0 _ _ _ le_rfl
    | (rename_i heq
       have hlt : rem (p.advance).2 + 1 ≤ rem p := rem_advance_lt p (by rw [heq]; decide)
       refine sp_mono (sp_of_lt 1 ?_ hlt) (by omega)
       refine sp_bind_1_0 ((IH (rem (p.advance).2) (by omega)).factor (p.advance).2 le_rfl k
         (by omega)) (fun right q hv hq => ?_)
       exact (IH (rem q) (by omega)).term_loop _ q le_rfl k (by omega))

theorem term_spec (n : Nat)
    (hfactor : FnSpec 4 1 Parser.factor n) (hloop : FnSpecA 1 0 Parser.term_loop n) :
    FnSpec 5 1 Parser.term n := by
  intro p hp fuel hfuel
  obtain ⟨k, rfl⟩ : ∃ k, fuel = k + 1 := ⟨fuel - 1, by omega⟩
  simp only [Parser.term]
  refine sp_bind_1_0 (hfactor p hp k (by omega)) (fun left q hv hq => ?_)
  exact hloop left q (by omega) k (by omega)

theorem comparison_loop_spec (n : Nat) (IH : ∀ m, m < n → AllSpecs m) :
    FnSpecA 1 0 Parser.comparison_loop n := by
  intro e p hp fuel hfuel
  obtain ⟨k, rfl⟩ : ∃ k, fuel = k + 1 := ⟨fuel - 1, by omega⟩
  simp only [Parser.comparison_loop]
  split
  all_goals first
    | exact sp_ok 0 _ _ _ le_rfl
    | (rename_i heq
       have hlt : rem (p.advance).2 + 1 ≤ rem p := rem_advance_lt p (by rw [heq]; decide)
       refine sp_mono (sp_of_lt 1 ?_ hlt) (by omega)
       refine sp_bind_1_0 ((IH (rem (p.advance).2) (by omega)).term (p.advance).2 le_rfl k
         (by omega)) (fun right q hv hq => ?_)
       exact (IH (rem q) (by omega)).comparison_loop _ q le_rfl k (by omega))

theorem comparison_spec (n : Nat)
    (hterm : FnSpec 5 1 Parser.term n) (hloop : FnSpecA 1 0 Parser.comparison_loop n) :
    FnSpec 6 1 Parser.comparison n := by
  intro p hp fuel hfuel
  obtain ⟨k, rfl⟩ : ∃ k, fuel = k + 1 := ⟨fuel - 1, by omega⟩
  simp only [Parser.comparison]
  refine sp_bind_1_0 (hterm p hp k (by omega)) (fun left q hv hq => ?_)
  exact hloop left q (by omega) k (by omega)

theorem equality_loop_spec (n : Nat) (IH : ∀ m, m < n → AllSpecs m) :
    FnSpecA 1 0 Parser.equality_loop n := by
  intro e p hp fuel hfuel
  obtain ⟨k, rfl⟩ : ∃ k, fuel = k + 1 := ⟨fuel - 1, by omega⟩
  simp only [Parser.equality_loop]
  split
  all_goals first
    | exact sp_ok 0 _ _ _ le_rfl
    | (rename_i heq
       have hlt : rem (p.advance).2 + 1 ≤ rem p := rem_advance_lt p (by rw [heq]; decide)
       refine sp_mono (sp_of_lt 1 ?_ hlt) (by omega)
       refine sp_bind_1_0 ((IH (rem (p.advance).2) (by omega)).comparison (p.advance).2 le_rfl k
         (by omega)) (fun right q hv hq => ?_)
       exact (IH (rem q) (by omega)).equality_loop _ q le_rfl k (by omega))

theorem equality_spec (n : Nat)
    (hcomparison : FnSpec 6 1 Parser.comparison n)
    (hloop : FnSpecA 1 0 Parser.equality_loop n) :
    FnSpec 7 1 Parser.equality n := by
  intro p hp fuel hfuel
  obtain ⟨k, rfl⟩ : ∃ k, fuel = k + 1 := ⟨fuel - 1, by omega⟩
  simp only [Parser.equality]
  refine sp_bind_1_0 (hcomparison p hp k (by omega)) (fun left q hv hq => ?_)
  exact hloop left q (by omega) k (by omega)

theorem and_loop_spec (n : Nat) (IH : ∀ m, m < n → AllSpecs m) :
    FnSpecA 1 0 Parser.and_loop n := by
  intro e p hp fuel hfuel
  obtain ⟨k, rfl⟩ : ∃ k, fuel = k + 1 := ⟨fuel - 1, by omega⟩
  simp only [Parser.and_loop]
  split
  · rename_i his
    have hlt : rem (p.advance).2 + 1 ≤ rem p :=
      rem_advance_lt p (by rw [is_tag_eq his]; decide)
    refine sp_mono (sp_of_lt 1 ?_ hlt) (by omega)
    refine sp_bind_1_0 ((IH (rem (p.advance).2) (by omega)).equality (p.advance).2 le_rfl k
      (by omega)) (fun right q hv hq => ?_)
    exact (IH (rem q) (by omega)).and_loop _ q le_rfl k (by omega)
  · exact sp_ok 0 _ _ _ le_rfl

theorem and_spec (n : Nat)
    (hequality : FnSpec 7 1 Parser.equality n) (hloop : FnSpecA 1 0 Parser.and_loop n) :
    FnSpec 8 1 Parser.and n := by
  intro p hp fuel hfuel
  obtain ⟨k, rfl⟩ : ∃ k, fuel = k + 1 := ⟨fuel - 1, by omega⟩
  simp only [Parser.and]
  refine sp_bind_1_0 (hequality p hp k (by omega)) (fun left q hv hq => ?_)
  exact hloop left q (by omega) k (by omega)

theorem or_loop_spec (n : Nat) (IH : ∀ m, m < n → AllSpecs m) :
    FnSpecA 1 0 Parser.or_loop n := by
  intro e p hp fuel hfuel
  obtain ⟨k, rfl⟩ : ∃ k, fuel = k + 1 := ⟨fuel - 1, by omega⟩
  simp only [Parser.or_loop]
  split
  · rename_i his
    have hlt : rem (p.advance).2 + 1 ≤ rem p :=
      rem_advance_lt p (by rw [is_tag_eq his]; decide)
    refine sp_mono (sp_of_lt 1 ?_ hlt) (by omega)
    refine sp_bind_1_0 ((IH (rem (p.advance).2) (by omega)).and (p.advance).2 le_rfl k
      (by omega)) (fun right q hv hq => ?_)
    exact (IH (rem q) (by omega)).or_loop _ q le_rfl k (by omega)
  · exact sp_ok 0 _ _ _ le_rfl

theorem or_spec (n : Nat)
    (hand : FnSpec 8 1 Parser.and n) (hloop : FnSpecA 1 0 Parser.or_loop n) :
    FnSpec 9 1 Parser.or n := by
  intro p hp fuel hfuel
  obtain ⟨k, rfl⟩ : ∃ k, fuel = k + 1 := ⟨fuel - 1, by omega⟩
  simp only [Parser.or]
  refine sp_bind_1_0 (hand p hp k (by omega)) (fun left q hv hq => ?_)
  exact hloop left q (by omega) k (by omega)

theorem assignment_spec (n : Nat) (hor : FnSpec 9 1 Parser.or n) :
    FnSpec 10 1 Parser.assignment n := by
  intro p hp fuel hfuel
  obtain ⟨k, rfl⟩ : ∃ k, fuel = k + 1 := ⟨fuel - 1, by omega⟩
  simp only [Parser.assignment]
  refine sp_bind_1_0 (hor p hp k (by omega)) (fun left p₁ hv hq => ?_)
  split
  all_goals first
    | exact sp_ok 0 _ _ _ le_rfl
    | (rename_i heq
       have hlt : rem (p₁.advance).2 + 1 ≤ rem p₁ := rem_advance_lt p₁ (by rw [heq]; decide)
       refine sp_mono (sp_of_lt 1 ?_ hlt) (by omega)
       refine sp_bind_1_0 (hor (p₁.advance).2 (by omega) k (by omega))
         (fun right p₂ hv₂ hq₂ => ?_)
       split
       · exact sp_ok 0 _ _ _ le_rfl
       · exact sp_ok 0 _ _ _ le_rfl
       · exact sp_err 0 _ _)

theorem expression_spec (n : Nat) (hassignment : FnSpec 10 1 Parser.assignment n) :
    FnSpec 11 1 Parser.expression n := by
  intro p hp fuel hfuel
  obtain ⟨k, rfl⟩ : ∃ k, fuel = k + 1 := ⟨fuel - 1, by omega⟩
  simp only [Parser.expression]
  exact hassignment p hp k (by omega)

theorem expression_statement_spec (n : Nat)
    (hexpression : FnSpec 11 1 Parser.expression n) :
    FnSpec 12 1 Parser.expression_statement n := by
  intro p hp fuel hfuel
  obtain ⟨k, rfl⟩ : ∃ k, fuel = k + 1 := ⟨fuel - 1, by omega⟩
  simp only [Parser.expression_statement]
  refine sp_bind_1_0 (hexpression p hp k (by omega)) (fun e q hv hq => ?_)
  exact sp_mono (sp_bind (sp_should_be q .Semicolon (by decide))
    (fun v s hv₂ hq₂ => sp_ok 0 _ s s le_rfl)) (by omega)

theorem block_loop_spec (n : Nat) (IH : ∀ m, m < n → AllSpecs m)
    (hdeclaration : FnSpec 14 1 Parser.declaration n) :
    FnSpecA 15 0 Parser.block_loop n := by
  intro acc p hp fuel hfuel
  obtain ⟨k, rfl⟩ : ∃ k, fuel = k + 1 := ⟨fuel - 1, by omega⟩
  simp only [Parser.block_loop]
  split
  · refine sp_mono (sp_bind_1_0 (hdeclaration p hp k (by omega)) (fun s q hv hq => ?_))
      (by omega)
    exact (IH (rem q) (by omega)).block_loop _ q le_rfl k (by omega)
  · exact sp_ok 0 _ _ _ le_rfl

theorem block_statement_spec (n : Nat) (IH : ∀ m, m < n → AllSpecs m) :
    FnSpec 1 1 Parser.block_statement n := by
  intro p hp fuel hfuel
  obtain ⟨k, rfl⟩ : ∃ k, fuel = k + 1 := ⟨fuel - 1, by omega⟩
  simp only [Parser.block_statement]
  refine sp_bind_1_0 (sp_should_be p .LBrace (by decide)) (fun _ q hv hq => ?_)
  refine sp_bind_0_0 ((IH (rem q) (by omega)).block_loop [] q le_rfl k (by omega))
    (fun st s hv₂ hq₂ => ?_)
  exact sp_mono (sp_bind (sp_should_be s .RBrace (by decide))
    (fun w u hv₃ hq₃ => sp_ok 0 _ u u le_rfl)) (by omega)

theorem print_statement_spec (n : Nat) (IH : ∀ m, m < n → AllSpecs m) :
    FnSpecNE 1 1 Parser.print_statement n := by
  intro p hne hp fuel hfuel
  obtain ⟨k, rfl⟩ : ∃ k, fuel = k + 1 := ⟨fuel - 1, by omega⟩
  simp only [Parser.print_statement]
  have hlt : rem (p.advance).2 + 1 ≤ rem p := rem_advance_lt p hne
  refine sp_of_lt 1 ?_ hlt
  refine sp_bind_1_0 ((IH (rem (p.advance).2) (by omega)).expression _ le_rfl k (by omega))
    (fun e q hv hq => ?_)
  exact sp_mono (sp_bind (sp_should_be q .Semicolon (by decide))
    (fun v s hv₂ hq₂ => sp_ok 0 _ s s le_rfl)) (by omega)

theorem return_statement_spec (n : Nat) (IH : ∀ m, m < n → AllSpecs m) :
    FnSpecNE 1 1 Parser.return_statement n := by
  intro p hne hp fuel hfuel
  obtain ⟨k, rfl⟩ : ∃ k, fuel = k + 1 := ⟨fuel - 1, by omega⟩
  simp only [Parser.return_statement]
  have hlt : rem (p.advance).2 + 1 ≤ rem p := rem_advance_lt p hne
  refine sp_of_lt 0 ?_ hlt
  refine sp_bind_0_0 ?_ (fun value q hv hq => ?_)
  · split
    · refine sp_mono (sp_bind_1_0
        ((IH (rem (p.advance).2) (by omega)).expression _ le_rfl k (by omega))
        (fun v s hv₂ hq₂ => sp_ok 0 _ s s le_rfl)) (by omega)
    · exact sp_ok 0 _ _ _ le_rfl
  · exact sp_mono (sp_bind (sp_should_be q .Semicolon (by decide))
      (fun v s hv₂ hq₂ => sp_ok 0 _ s s le_rfl)) (by omega)

theorem while_statement_spec (n : Nat) (IH : ∀ m, m < n → AllSpecs m) :
    FnSpecNE 1 1 Parser.while_statement n := by
  intro p hne hp fuel hfuel
  obtain ⟨k, rfl⟩ : ∃ k, fuel = k + 1 := ⟨fuel - 1, by omega⟩
  simp only [Parser.while_statement]
  have hlt : rem (p.advance).2 + 1 ≤ rem p := rem_advance_lt p hne
  refine sp_of_lt 1 ?_ hlt
  refine sp_bind_1_0 (sp_should_be _ .LParen (by decide)) (fun _ p₁ hv₁ hq₁ => ?_)
  refine sp_mono (sp_bind_1_0 ((IH (rem p₁) (by omega)).expression p₁ le_rfl k (by omega))
    (fun c p₂ hv₂ hq₂ => ?_)) (by omega)
  refine sp_mono (sp_bind_1_0 (sp_should_be p₂ .RParen (by decide))
    (fun _ p₃ hv₃ hq₃ => ?_)) (by omega)
  refine sp_mono (sp_bind_1_0 ((IH (rem p₃) (by omega)).statement p₃ le_rfl k (by omega))
    (fun body p₄ hv₄ hq₄ => sp_ok 0 _ p₄ p₄ le_rfl)) (by omega)

theorem if_statement_spec (n : Nat) (IH : ∀ m, m < n → AllSpecs m) :
    FnSpecNE 1 1 Parser.if_statement n := by
  intro p hne hp fuel hfuel
  obtain ⟨k, rfl⟩ : ∃ k, fuel = k + 1 := ⟨fuel - 1, by omega⟩
  simp only [Parser.if_statement]
  have hlt : rem (p.advance).2 + 1 ≤ rem p := rem_advance_lt p hne
  refine sp_of_lt 1 ?_ hlt
  refine sp_bind_1_0 (sp_should_be _ .LParen (by decide)) (fun _ p₁ hv₁ hq₁ => ?_)
  refine sp_mono (sp_bind_1_0 ((IH (rem p₁) (by omega)).expression p₁ le_rfl k (by omega))
    (fun c p₂ hv₂ hq₂ => ?_)) (by omega)
  refine sp_mono (sp_bind_1_0 (sp_should_be p₂ .RParen (by decide))
    (fun _ p₃ hv₃ hq₃ => ?_)) (by omega)
  refine sp_mono (sp_bind_1_0 ((IH (rem p₃) (by omega)).statement p₃ le_rfl k (by omega))
    (fun truthy p₄ hv₄ hq₄ => ?_)) (by omega)
  refine sp_bind_0_0 ?_ (fun falsy p₆ hv₆ hq₆ => sp_ok 0 _ p₆ p₆ le_rfl)
  split
  · rename_i his
    have hlt₂ : rem (p₄.advance).2 + 1 ≤ rem p₄ :=
      rem_advance_lt p₄ (by rw [is_tag_eq his]; decide)
    refine sp_mono (sp_of_lt 1 ?_ hlt₂) (by omega)
    refine sp_bind_1_0 ((IH (rem (p₄.advance).2) (by omega)).statement _ le_rfl k (by omega))
      (fun f p₅ hv₅ hq₅ => sp_ok 0 _ p₅ p₅ le_rfl)
  · exact sp_ok 0 _ _ _ le_rfl

theorem for_statement_spec (n : Nat) (IH : ∀ m, m < n → AllSpecs m) :
    FnSpecNE 1 1 Parser.for_statement n := by
  intro p hne hp fuel hfuel
  obtain ⟨k, rfl⟩ : ∃ k, fuel = k + 1 := ⟨fuel - 1, by omega⟩
  simp only [Parser.for_statement]
  have hlt : rem (p.advance).2 + 1 ≤ rem p := rem_advance_lt p hne
  refine sp_of_lt 1 ?_ hlt
  refine sp_bind_1_0 (sp_should_be _ .LParen (by decide)) (fun _ p₁ hv₁ hq₁ => ?_)
  refine sp_bind_0_0 ?_ (fun initializer p₃ hv₃ hq₃ => ?_)
  · split
    · exact sp_ok 0 _ _ _ le_rfl
    · rename_i heq
      refine sp_mono (sp_bind_1_0
        ((IH (rem p₁) (by omega)).let_declaration p₁ (by rw [heq]; decide) le_rfl k (by omega))
        (fun s q hv hq => sp_ok 0 _ q q le_rfl)) (by omega)
    · refine sp_mono (sp_bind_1_0
        ((IH (rem p₁) (by omega)).expression_statement p₁ le_rfl k (by omega))
        (fun s q hv hq => sp_ok 0 _ q q le_rfl)) (by omega)
  · refine sp_bind_0_0 ?_ (fun condition p₅ hv₅ hq₅ => ?_)
    · split
      · exact sp_ok 0 _ _ _ le_rfl
      · refine sp_mono (sp_bind_1_0
          ((IH (rem p₃) (by omega)).expression p₃ le_rfl k (by omega))
          (fun e q hv hq => sp_ok 0 _ q q le_rfl)) (by omega)
    · refine sp_mono (sp_bind_1_0 (sp_should_be p₅ .Semicolon (by decide))
        (fun _ p₆ hv₆ hq₆ => ?_)) (by omega)
      refine sp_bind_0_0 ?_ (fun increment p₈ hv₈ hq₈ => ?_)
      · split
        · exact sp_ok 0 _ _ _ le_rfl
        · refine sp_mono (sp_bind_1_0
            ((IH (rem p₆) (by omega)).expression p₆ le_rfl k (by omega))
            (fun e q hv hq => sp_ok 0 _ q q le_rfl)) (by omega)
      · refine sp_mono (sp_bind_1_0 (sp_should_be p₈ .RParen (by decide))
          (fun _ p₉ hv₉ hq₉ => ?_)) (by omega)
        refine sp_mono (sp_bind_1_0
          ((IH (rem p₉) (by omega)).statement p₉ le_rfl k (by omega))
          (fun body p₁₀ hv hq => sp_ok 0 _ p₁₀ p₁₀ le_rfl)) (by omega)

theorem let_declaration_spec (n : Nat) (IH : ∀ m, m < n → AllSpecs m) :
    FnSpecNE 1 1 Parser.let_declaration n := by
  intro p hne hp fuel hfuel
  obtain ⟨k, rfl⟩ : ∃ k, fuel = k + 1 := ⟨fuel - 1, by omega⟩
  simp only [Parser.let_declaration]
  have hlt : rem (p.advance).2 + 1 ≤ rem p := rem_advance_lt p hne
  refine sp_of_lt 0 ?_ hlt
  refine sp_mono (sp_bind_1_0 (sp_get_identifier _) (fun name p₂ hv hq => ?_)) (by omega)
  refine sp_bind_0_0 ?_ (fun value p₄ hv₄ hq₄ => ?_)
  · split
    · rename_i his
      have hlt₂ : rem (p₂.advance).2 + 1 ≤ rem p₂ :=
        rem_advance_lt p₂ (by rw [is_tag_eq his]; decide)
      refine sp_mono (sp_of_lt 1 ?_ hlt₂) (by omega)
      refine sp_bind_1_0
        ((IH (rem (p₂.advance).2) (by omega)).expression _ le_rfl k (by omega))
        (fun v s hv₂ hq₂ => sp_ok 0 _ s s le_rfl)
    · exact sp_ok 0 _ _ _ le_rfl
  · exact sp_mono (sp_bind (sp_should_be p₄ .Semicolon (by decide))
      (fun _ s hv₂ hq₂ => sp_ok 0 _ s s le_rfl)) (by omega)

theorem params_loop_spec (n : Nat) (IH : ∀ m, m < n → AllSpecs m) :
    FnSpecA 1 0 Parser.params_loop n := by
  intro acc p hp fuel hfuel
  obtain ⟨k, rfl⟩ : ∃ k, fuel = k + 1 := ⟨fuel - 1, by omega⟩
  simp only [Parser.params_loop]
  split
  · rename_i his
    have hlt : rem (p.advance).2 + 1 ≤ rem p :=
      rem_advance_lt p (by rw [is_tag_eq his]; decide)
    refine sp_mono (sp_of_lt 1 ?_ hlt) (by omega)
    refine sp_bind_1_0 (sp_get_identifier _) (fun x q hv hq => ?_)
    exact (IH (rem q) (by omega)).params_loop _ q le_rfl k (by omega)
  · exact sp_ok 0 _ _ _ le_rfl

theorem function_declaration_spec (n : Nat) (IH : ∀ m, m < n → AllSpecs m) :
    FnSpec 1 1 Parser.function_declaration n := by
  intro p hp fuel hfuel
  obtain ⟨k, rfl⟩ : ∃ k, fuel = k + 1 := ⟨fuel - 1, by omega⟩
  simp only [Parser.function_declaration]
  refine sp_bind_1_0 (sp_get_identifier p) (fun name p₁ hv₁ hq₁ => ?_)
  refine sp_mono (sp_bind_1_0 (sp_should_be p₁ .LParen (by decide))
    (fun _ p₂ hv₂ hq₂ => ?_)) (by omega)
  refine sp_bind_0_0 ?_ (fun params p₄ hv₄ hq₄ => ?_)
  · split
    · refine sp_mono (sp_bind_1_0 (sp_get_identifier p₂) (fun first p₃ hv₃ hq₃ => ?_))
        (by omega)
      exact (IH (rem p₃) (by omega)).params_loop _ p₃ le_rfl k (by omega)
    · exact sp_ok 0 _ _ _ le_rfl
  · refine sp_mono (sp_bind_1_0 (sp_should_be p₄ .RParen (by decide))
      (fun _ p₅ hv₅ hq₅ => ?_)) (by omega)
    refine sp_mono (sp_bind_1_0
      ((IH (rem p₅) (by omega)).block_statement p₅ le_rfl k (by omega))
      (fun body p₆ hv₆ hq₆ => sp_ok 0 _ p₆ p₆ le_rfl)) (by omega)

theorem class_methods_loop_spec (n : Nat) (IH : ∀ m, m < n → AllSpecs m)
    (hfunction : FnSpec 1 1 Parser.function_declaration n) :
    FnSpecA 2 0 Parser.class_methods_loop n := by
  intro acc p hp fuel hfuel
  obtain ⟨k, rfl⟩ : ∃ k, fuel = k + 1 := ⟨fuel - 1, by omega⟩
  simp only [Parser.class_methods_loop]
  split
  · refine sp_mono (sp_bind_1_0 (hfunction p hp k (by omega)) (fun m q hv hq => ?_))
      (by omega)
    exact (IH (rem q) (by omega)).class_methods_loop _ q le_rfl k (by omega)
  · exact sp_ok 0 _ _ _ le_rfl

theorem class_declaration_spec (n : Nat) (IH : ∀ m, m < n → AllSpecs m) :
    FnSpec 1 1 Parser.class_declaration n := by
  intro p hp fuel hfuel
  obtain ⟨k, rfl⟩ : ∃ k, fuel = k + 1 := ⟨fuel - 1, by omega⟩
  simp only [Parser.class_declaration]
  refine sp_bind_1_0 (sp_get_identifier p) (fun name p₁ hv₁ hq₁ => ?_)
  refine sp_bind_0_0 ?_ (fun super_class p₃ hv₃ hq₃ => ?_)
  · split
    · rename_i his
      have hlt : rem (p₁.advance).2 + 1 ≤ rem p₁ :=
        rem_advance_lt p₁ (by rw [is_tag_eq his]; decide)
      refine sp_mono (sp_of_lt 1 ?_ hlt) (by omega)
      refine sp_bind_1_0 (sp_get_identifier _) (fun sup p₂ hv₂ hq₂ => ?_)
      split
      · exact sp_err 0 _ _
      · exact sp_ok 0 _ _ _ le_rfl
    · exact sp_ok 0 _ _ _ le_rfl
  · refine sp_mono (sp_bind_1_0 (sp_should_be p₃ .LBrace (by decide))
      (fun _ p₄ hv₄ hq₄ => ?_)) (by omega)
    refine sp_bind_0_0
      ((IH (rem p₄) (by omega)).class_methods_loop [] p₄ le_rfl k (by omega))
      (fun methods p₅ hv₅ hq₅ => ?_)
    exact sp_mono (sp_bind (sp_should_be p₅ .RBrace (by decide))
      (fun _ s hv₆ hq₆ => sp_ok 0 _ s s le_rfl)) (by omega)

theorem statement_spec (n : Nat)
    (hprint : FnSpecNE 1 1 Parser.print_statement n)
    (hif : FnSpecNE 1 1 Parser.if_statement n)
    (hwhile : FnSpecNE 1 1 Parser.while_statement n)
    (hfor : FnSpecNE 1 1 Parser.for_statement n)
    (hreturn : FnSpecNE 1 1 Parser.return_statement n)
    (hblock : FnSpec 1 1 Parser.block_statement n)
    (hexprstmt : FnSpec 12 1 Parser.expression_statement n) :
    FnSpec 13 1 Parser.statement n := by
  intro p hp fuel hfuel
  obtain ⟨k, rfl⟩ : ∃ k, fuel = k + 1 := ⟨fuel - 1, by omega⟩
  simp only [Parser.statement]
  split
  all_goals first
    | exact hexprstmt p hp k (by omega)
    | exact hblock p hp k (by omega)
    | (rename_i heq
       exact hprint p (by rw [heq]; decide) hp k (by omega))
    | (rename_i heq
       exact hif p (by rw [heq]; decide) hp k (by omega))
    | (rename_i heq
       exact hwhile p (by rw [heq]; decide) hp k (by omega))
    | (rename_i heq
       exact hfor p (by rw [heq]; decide) hp k (by omega))
    | (rename_i heq
       exact hreturn p (by rw [heq]; decide) hp k (by omega))

theorem declaration_spec (n : Nat)
    (hlet : FnSpecNE 1 1 Parser.let_declaration n)
    (hclass : FnSpec 1 1 Parser.class_declaration n)
    (hfunction : FnSpec 1 1 Parser.function_declaration n)
    (hstatement : FnSpec 13 1 Parser.statement n) :
    FnSpec 14 1 Parser.declaration n := by
  intro p hp fuel hfuel
  obtain ⟨k, rfl⟩ : ∃ k, fuel = k + 1 := ⟨fuel - 1, by omega⟩
  simp only [Parser.declaration]
  split
  all_goals first
    | exact hstatement p hp k (by omega)
    | exact hclass p hp k (by omega)
    | (rename_i heq
       exact hlet p (by rw [heq]; decide) hp k (by omega))
    | (rename_i heq
       have hlt : rem (p.advance).2 + 1 ≤ rem p := rem_advance_lt p (by rw [heq]; decide)
       refine sp_of_lt 1 ?_ hlt
       exact hfunction (p.advance).2 (by omega) k (by omega))

theorem parse_program_loop_spec (n : Nat) (IH : ∀ m, m < n → AllSpecs m)
    (hdeclaration : FnSpec 14 1 Parser.declaration n) :
    FnSpecA 15 0 Parser.parse_program_loop n := by
  intro acc p hp fuel hfuel
  obtain ⟨k, rfl⟩ : ∃ k, fuel = k + 1 := ⟨fuel - 1, by omega⟩
  simp only [Parser.parse_program_loop]
  split
  · refine sp_mono (sp_bind_1_0 (hdeclaration p hp k (by omega)) (fun s q hv hq => ?_))
      (by omega)
    exact (IH (rem q) (by omega)).parse_program_loop _ q le_rfl k (by omega)
  · exact sp_ok 0 _ _ _ le_rfl

theorem all_specs (n : Nat) : AllSpecs n := by
  induction n using Nat.strong_induction_on with
  | _ n IH =>
    have hprimary := primary_spec n IH
    have hcall_loop := call_loop_spec n IH
    have hcall := call_spec n hprimary hcall_loop
    have hunary := unary_spec n IH hcall
    have hfactor_loop := factor_loop_spec n IH
    have hfactor := factor_spec n hunary hfactor_loop
    have hterm_loop := term_loop_spec n IH
    have hterm := term_spec n hfactor hterm_loop
    have hcomparison_loop := comparison_loop_spec n IH
    have hcomparison := comparison_spec n hterm hcomparison_loop
    have hequality_loop := equality_loop_spec n IH
    have hequality := equality_spec n hcomparison hequality_loop
    have hand_loop := and_loop_spec n IH
    have hand := and_spec n hequality hand_loop
    have hor_loop := or_loop_spec n IH
    have hor := or_spec n hand hor_loop
    have hassignment := assignment_spec n hor
    have hexpression := expression_spec n hassignment
    have hcall_args := call_args_loop_spec n IH hexpression
    have hexprstmt := expression_statement_spec n hexpression
    have hblock_statement := block_statement_spec n IH
    have hprint := print_statement_spec n IH
    have hreturn := return_statement_spec n IH
    have hwhile := while_statement_spec n IH
    have hif := if_statement_spec n IH
    have hfor := for_statement_spec n IH
    have hlet := let_declaration_spec n IH
    have hparams := params_loop_spec n IH
    have hfunction := function_declaration_spec n IH
    have hmethods := class_methods_loop_spec n IH hfunction
    have hclass := class_declaration_spec n IH
    have hstatement := statement_spec n hprint hif hwhile hfor hreturn hblock_statement
      hexprstmt
    have hdeclaration := declaration_spec n hlet hclass hfunction hstatement
    have hblock_loop := block_loop_spec n IH hdeclaration
    have hpploop := parse_program_loop_spec n IH hdeclaration
    exact ⟨hprimary, hcall_loop, hcall_args, hcall, hunary, hfactor_loop, hfactor,
      hterm_loop, hterm, hcomparison_loop, hcomparison, hequality_loop, hequality,
      hand_loop, hand, hor_loop, hor, hassignment, hexpression, hexprstmt,
      hblock_loop, hblock_statement, hprint, hreturn, hwhile, hif, hfor, hlet,
      hparams, hfunction, hmethods, hclass, hstatement, hdeclaration, hpploop⟩

theorem rem_new_le (ts : Lexer) : rem (Parser.new ts) ≤ ts.length := by
  cases ts with
  | nil => simp [Parser.new, Lexer.next, rem, TokenInfo.new]
  | cons t ts₂ =>
    simp [Parser.new, Lexer.next, rem]
    split_ifs <;> omega

/-- Claim C9: on every finite token stream (the modelled source keeps
yielding the end-of-input marker once exhausted), `parse_program`
terminates: at the canonical fuel bound it returns either a statement list
or an error, never the fuel-exhaustion marker.  Fuel exhaustion is the
embedding's image of nontermination, so no production loops forever over
the token stream. -/
theorem c9_parse_program_terminates :
    ∀ ts : Lexer,
      (∃ stmts q, parse_program ts = .ok stmts q) ∨ ∃ e, parse_program ts = .err e := by
  intro ts
  have hb : 15 + 20 * rem (Parser.new ts) ≤ fuel_bound ts := by
    have := rem_new_le ts
    unfold fuel_bound
    omega
  have h := (all_specs (rem (Parser.new ts))).parse_program_loop [] (Parser.new ts) le_rfl
    (fuel_bound ts) hb
  cases hres : Parser.parse_program_loop (fuel_bound ts) [] (Parser.new ts) with
  | ok v q => exact Or.inl ⟨v, q, by simp [parse_program, hres]⟩
  | err e => exact Or.inr ⟨e, by simp [parse_program, hres]⟩
  | timeout => exact absurd hres h.1

end Yai
